import Mathlib

/-!
Verification development for the prospect_cleaner repository.

The Python source is shallowly embedded: pure functions become Lean
functions over `String`/`ℚ`/`ℕ`, fallible operations are modelled in the
`Except` monad, the external LLM service is modelled by an oracle value
describing its observable behaviour (network error, unparseable text, or
a parsed JSON value), and the asyncio pipeline is modelled as a labelled
transition system.  Python floats are embedded as exact rationals.
-/

namespace ProspectCleaner

/-! ## Python primitives -/

/-- Python whitespace characters recognised by `str.strip` / `str.split`
(ASCII subset; the inputs handled by this program are ordinary text). -/
def pyIsSpace (c : Char) : Bool :=
  c = ' ' || c = '\t' || c = '\n' || c = '\r' || c.toNat = 11 || c.toNat = 12

/-- Python `str.strip()`. -/
def pyStrip (s : String) : String :=
  String.mk (((s.toList.dropWhile pyIsSpace).reverse.dropWhile pyIsSpace).reverse)

/-- Python `str.lower()` (ASCII lowering, as exercised by this program's data). -/
def pyLower (s : String) : String :=
  String.mk (s.toList.map Char.toLower)

/-- Python `x or ""` for an optional string argument (`None` and `""` are falsy). -/
def pyOrEmpty : Option String → String
  | none => ""
  | some s => s

/-- Item `s[-1]` on the non-empty list produced by `str.split(sep)`. -/
def pyLast (l : List String) : String := l.getLastD ""

/-- Item `s[0]` on the non-empty list produced by `str.split(sep)`. -/
def pyHead (l : List String) : String := l.headD ""

/-- Python `re.sub(r"[^a-z0-9]", "", s)`. -/
def azFilter (s : String) : String :=
  String.mk (s.toList.filter (fun c => (('a' ≤ c && c ≤ 'z') || ('0' ≤ c && c ≤ '9'))))

/-- Python `needle in hay` substring test. -/
def strContains (needle hay : String) : Bool :=
  (List.range (hay.toList.length + 1)).any
    (fun k => needle.toList.isPrefixOf (hay.toList.drop k))

/-! ## Rounding and clamping (`math.ceil(raw * 100) / 100`, `min(max(x,0),1)`) -/

/-- Python `math.ceil(q * 100) / 100` — round up to the nearest hundredth. -/
def roundUpHundredth (q : ℚ) : ℚ := (⌈q * 100⌉ : ℚ) / 100

/-- Python `min(max(x, 0), 1)`. -/
def clamp01 (q : ℚ) : ℚ := min (max q 0) 1

theorem clamp01_nonneg (q : ℚ) : 0 ≤ clamp01 q := by
  unfold clamp01
  rcases le_total (max q 0) 1 with h | h
  · simp [min_eq_left h, le_max_right]
  · simp [min_eq_right h]

theorem clamp01_le_one (q : ℚ) : clamp01 q ≤ 1 := min_le_right _ _

theorem roundUpHundredth_nonneg {q : ℚ} (h : 0 ≤ q) : 0 ≤ roundUpHundredth q := by
  unfold roundUpHundredth
  have h100 : (0 : ℚ) ≤ q * 100 := by positivity
  have : (0 : ℤ) ≤ ⌈q * 100⌉ := Int.ceil_nonneg h100
  have : (0 : ℚ) ≤ (⌈q * 100⌉ : ℚ) := by exact_mod_cast this
  positivity

theorem roundUpHundredth_le_one {q : ℚ} (h : q ≤ 1) : roundUpHundredth q ≤ 1 := by
  unfold roundUpHundredth
  have h100 : q * 100 ≤ (100 : ℤ) := by push_cast; linarith
  have hc : ⌈q * 100⌉ ≤ (100 : ℤ) := Int.ceil_le.mpr h100
  have hc' : ((⌈q * 100⌉ : ℤ) : ℚ) ≤ 100 := by exact_mod_cast hc
  linarith

theorem roundUpHundredth_mono {p q : ℚ} (h : p ≤ q) :
    roundUpHundredth p ≤ roundUpHundredth q := by
  unfold roundUpHundredth
  have : ⌈p * 100⌉ ≤ ⌈q * 100⌉ := Int.ceil_le_ceil (by linarith)
  have : ((⌈p * 100⌉ : ℤ) : ℚ) ≤ ⌈q * 100⌉ := by exact_mod_cast this
  linarith

theorem clamp01_mono {p q : ℚ} (h : p ≤ q) : clamp01 p ≤ clamp01 q := by
  unfold clamp01
  exact min_le_min (max_le_max h le_rfl) le_rfl

/-! ## `CompanyValidator._calibrate` (company_validator.py lines 357-366) -/

namespace CompanyValidator

/-- Source `_calibrate(conf, citations, domain_match, unknown_flag)`:
`bonus = min(citations, 4) * 0.025`, `+0.1` on domain match, `conf *= 0.3`
on unknown flag, clamp to `[0,1]`, round up to the hundredth. -/
def calibrate (conf : ℚ) (citations : ℕ) (domainMatch unknownFlag : Bool) : ℚ :=
  let bonus : ℚ := (min citations 4 : ℕ) * 0.025
  let bonus : ℚ := if domainMatch then bonus + 0.1 else bonus
  let conf : ℚ := if unknownFlag then conf * 0.3 else conf
  roundUpHundredth (clamp01 (conf + bonus))

theorem companyCalibrate_nonneg (conf : ℚ) (c : ℕ) (dm uf : Bool) :
    0 ≤ calibrate conf c dm uf :=
  roundUpHundredth_nonneg (clamp01_nonneg _)

theorem companyCalibrate_le_one (conf : ℚ) (c : ℕ) (dm uf : Bool) :
    calibrate conf c dm uf ≤ 1 :=
  roundUpHundredth_le_one (clamp01_le_one _)

end CompanyValidator

/-! ## `NameValidator._similarity` (difflib.SequenceMatcher.ratio, no junk) -/

namespace NameValidator

/-- One row of the longest-matching-block DP: entry `j` of the result is the
length of the common run ending at `(i, j)`; `olds` is the previous row and
`diag` the previous row's entry at `j - 1` (0 at the left edge). -/
def flmRowGo (ai : Char) : List Char → List ℕ → ℕ → List ℕ
  | [], _, _ => []
  | bc :: bs, olds, diag =>
      let here := if bc = ai then diag + 1 else 0
      let oldHere := olds.headD 0
      here :: flmRowGo ai bs olds.tail oldHere

/-- Scan one DP row (row index `i`, columns starting at `blo`), updating the
best block; a block is recorded only when strictly longer, matching
difflib's `if k > bestsize` update. -/
def flmScanRow (i blo : ℕ) (row : List ℕ) (best : ℕ × ℕ × ℕ) : ℕ × ℕ × ℕ :=
  (List.range row.length).foldl
    (fun acc jd =>
      let k := row.getD jd 0
      if k > acc.2.2 then (i + 1 - k, blo + jd + 1 - k, k) else acc)
    best

/-- Embeds `SequenceMatcher.find_longest_match` on `a[alo:ahi]` / `b[blo:bhi]`
(no junk elements): returns `(besti, bestj, bestsize)`. -/
def findLongestMatch (a b : List Char) (alo ahi blo bhi : ℕ) : ℕ × ℕ × ℕ :=
  let bseg := (b.drop blo).take (bhi - blo)
  let step := fun (acc : List ℕ × (ℕ × ℕ × ℕ)) (i : ℕ) =>
    let row := flmRowGo (a.getD i ' ') bseg acc.1 0
    (row, flmScanRow i blo row acc.2)
  ((List.range' alo (ahi - alo)).foldl step
    (List.replicate bseg.length 0, (alo, blo, 0))).2

/-- Total size of all matching blocks (`sum of block sizes` in
`get_matching_blocks`): recurse left and right of each longest match.
`fuel` bounds the recursion depth; every call site supplies more fuel than
the combined range length, which the recursion strictly decreases. -/
def matchingSum (a b : List Char) : ℕ → ℕ → ℕ → ℕ → ℕ → ℕ
  | 0, _, _, _, _ => 0
  | fuel + 1, alo, ahi, blo, bhi =>
      let r := findLongestMatch a b alo ahi blo bhi
      let i := r.1
      let j := r.2.1
      let k := r.2.2
      if k = 0 then 0
      else matchingSum a b fuel alo i blo j + k +
           matchingSum a b fuel (i + k) ahi (j + k) bhi

/-- Embeds `SequenceMatcher(None, a, b).ratio() = 2*M/T` (and 1.0 when both empty). -/
def smRatio (a b : List Char) : ℚ :=
  let total := a.length + b.length
  if total = 0 then 1
  else 2 * (matchingSum a b (total + 1) 0 a.length 0 b.length : ℚ) / total

/-- Source `_similarity(a, b)` — ratio of the lowercased strings. -/
def similarity (a b : String) : ℚ :=
  smRatio (pyLower a).toList (pyLower b).toList

/-- Source `_calibrate(base, original, cleaned)` (name_validator.py lines 88-102):
`penalty = (1-sim)*0.4`, `bonus = sim*0.2`, clamp, round up to hundredth. -/
def calibrate (base : ℚ) (original cleaned : String) : ℚ :=
  let sim := similarity original cleaned
  let penalty := (1 - sim) * 0.4
  let bonus := sim * 0.2
  roundUpHundredth (clamp01 (base + bonus - penalty))

theorem nameCalibrate_nonneg (base : ℚ) (a b : String) : 0 ≤ calibrate base a b :=
  roundUpHundredth_nonneg (clamp01_nonneg _)

theorem nameCalibrate_le_one (base : ℚ) (a b : String) : calibrate base a b ≤ 1 :=
  roundUpHundredth_le_one (clamp01_le_one _)

end NameValidator

/-! ## JSON values, Python values and exceptions -/

/-- The value `json.loads` can produce. -/
inductive JsonVal where
  | jstr (s : String)
  | jnum (q : ℚ)
  | jbool (b : Bool)
  | jnull
  | jarr (xs : List JsonVal)
  | jobj (fields : List (String × JsonVal))

/-- A cell value coming out of the pandas table: a string, a float
(represented by its `str()` rendering — `"nan"` for NaN), or `None`. -/
inductive PyVal where
  | pstr (s : String)
  | pfloat (sval : String)
  | pnone
deriving DecidableEq

/-- Python exceptions relevant to the embedded code paths. -/
inductive PyErr where
  | netError    -- the external request (or reading its response) raised
  | jsonDecode  -- json.loads failed on the response text
  | attrError   -- attribute access on a value of the wrong type
  | typeError
  | keyError
  | valueError  -- float() applied to a non-numeric string
deriving DecidableEq

/-- The `dataclass ValidationResult` (models/validation_result.py).  `original`
is a `PyVal` because `CompanyValidator` stores the raw, possibly non-string
cell value there. -/
structure ValidationResult where
  original : PyVal
  validated : String
  confidence : ℚ
  source : String
  explanation : String
deriving DecidableEq

/-- Observable behaviour of one external LLM call, at the granularity the
code distinguishes: the awaited request raises, or the response text fails
`json.loads` (truncated JSON, non-JSON text), or it parses to a JSON value. -/
inductive SvcBehaviour where
  | netError
  | badText
  | parsed (v : JsonVal)

/-- Python `str(x)` on a cell value. -/
def pyValStr : PyVal → String
  | .pstr s => s
  | .pfloat r => r
  | .pnone => "None"

/-- Lookup in a JSON object; `json.loads` keeps the last duplicate key. -/
def jsonLookup (fields : List (String × JsonVal)) (k : String) : Option JsonVal :=
  (fields.reverse.find? (fun p => p.1 == k)).map Prod.snd

/-- Python `data.get(k, default)` — `AttributeError` unless `data` is an object. -/
def pyGet (v : JsonVal) (k : String) (dflt : JsonVal) : Except PyErr JsonVal :=
  match v with
  | .jobj fs => .ok ((jsonLookup fs k).getD dflt)
  | _ => .error .attrError

/-- Python `data[k]` — `AttributeError` unless an object, `KeyError` if absent. -/
def pyGetItem (v : JsonVal) (k : String) : Except PyErr JsonVal :=
  match v with
  | .jobj fs =>
      match jsonLookup fs k with
      | some x => .ok x
      | none => .error .keyError
  | _ => .error .attrError

/-- Python `==` between a string and a JSON-derived value. -/
def jsonEqStr (s : String) : JsonVal → Bool
  | .jstr t => s == t
  | _ => false

/-- Python `k in data`: key test on dicts, element test on lists, substring
test on strings, `TypeError` otherwise. -/
def pyIn (k : String) (v : JsonVal) : Except PyErr Bool :=
  match v with
  | .jobj fs => .ok (fs.any (fun p => p.1 == k))
  | .jarr xs => .ok (xs.any (jsonEqStr k))
  | .jstr s => .ok (strContains k s)
  | _ => .error .typeError

/-- Python truthiness of a JSON-derived value. -/
def pyTruthy : JsonVal → Bool
  | .jstr s => s != ""
  | .jnum q => q != 0
  | .jbool b => b
  | .jnull => false
  | .jarr xs => !xs.isEmpty
  | .jobj fs => !fs.isEmpty

/-- Python `str(x)` on a JSON-derived value, as used inside f-strings.  The exact
rendering of non-string values is irrelevant to every claim; strings render
as themselves, which is the only case the claims observe. -/
def jsonToStr : JsonVal → String
  | .jstr s => s
  | .jnum q => toString q.num ++ "/" ++ toString q.den
  | .jbool b => if b then "True" else "False"
  | .jnull => "None"
  | .jarr _ => "<list>"
  | .jobj _ => "<dict>"

/-- Python `.lower()` — `AttributeError` unless the value is a string. -/
def jsonLower : JsonVal → Except PyErr String
  | .jstr s => .ok (pyLower s)
  | _ => .error .attrError

def isDigits (l : List Char) : Bool := l.all (fun c => '0' ≤ c && c ≤ '9')

def natOfDigits (l : List Char) : ℕ := l.foldl (fun a c => a * 10 + (c.toNat - 48)) 0

/-- Python `float(string)`, restricted to plain decimal notation
(`[+-]?digits[.digits]`, `[+-]?.digits`).  Python also accepts exponents
and inf/nan spellings; those inputs never arise from this program's data,
and every use site either catches the error or clamps the value, so no
claim depends on the difference. -/
def floatOfString (s : String) : Except PyErr ℚ :=
  let t := (pyStrip s).toList
  let sign : ℚ := if t.headD ' ' = '-' then -1 else 1
  let t := if t.headD ' ' = '-' || t.headD ' ' = '+' then t.tail else t
  let ip := t.takeWhile (fun c => '0' ≤ c && c ≤ '9')
  let rest := t.drop ip.length
  match rest with
  | [] => if ip.isEmpty then .error .valueError else .ok (sign * natOfDigits ip)
  | '.' :: fp =>
      if isDigits fp && (!ip.isEmpty || !fp.isEmpty) then
        .ok (sign * ((natOfDigits ip : ℚ) + (natOfDigits fp : ℚ) / (10 ^ fp.length)))
      else .error .valueError
  | _ => .error .valueError

/-- Python `float(x)` on a JSON-derived value. -/
def pyFloat : JsonVal → Except PyErr ℚ
  | .jnum q => .ok q
  | .jbool b => .ok (if b then 1 else 0)
  | .jstr s => floatOfString s
  | _ => .error .typeError

/-! ## `CompanyValidator._basic_clean` (company_validator.py lines 368-383) -/

namespace CompanyValidator

/-- Try the alternation's words in order as a case-insensitive literal at
the head of `l` (regex alternation takes the first branch that matches);
returns the remainder on success. -/
def tryWords : List String → List Char → Option (List Char)
  | [], _ => none
  | w :: ws, l =>
      let wl := w.toList
      if (wl.map Char.toLower).isPrefixOf (l.map Char.toLower) then some (l.drop wl.length)
      else tryWords ws l

/-- Python `re.sub(pat, "", s, flags=IGNORECASE)` for a pattern of shape
`CLASS+(W1|W2|…)`: scan left to right; a maximal run of class characters
followed by one of the alternatives is dropped (the run is maximal because
no alternative starts with a class character, so regex backtracking cannot
shorten it), scanning resumes after the match.  `fuel` bounds recursion and
is always supplied larger than the list length. -/
def subClassWords (isRunChar : Char → Bool) (words : List String) :
    ℕ → List Char → List Char
  | 0, l => l
  | _, [] => []
  | fuel + 1, c :: cs =>
      if isRunChar c then
        let rest := (c :: cs).dropWhile isRunChar
        match tryWords words rest with
        | some rest2 => subClassWords isRunChar words fuel rest2
        | none => c :: subClassWords isRunChar words fuel cs
      else c :: subClassWords isRunChar words fuel cs

/-- Python `re.sub(r"\s*\([^)]+\)$", "", s)`: when the string ends in `)` and some
`(` opens a non-empty `)`-free group running to that final `)`, remove the
group together with the whitespace run immediately before it (leftmost
match: the earliest such `(` with its maximal preceding whitespace). -/
def stripTrailingParen (l : List Char) : List Char :=
  let n := l.length
  if l.getLast? = some ')' then
    match (List.range n).find? (fun q =>
        l.getD q ' ' == '(' && decide (q + 3 ≤ n) &&
        ((l.drop (q + 1)).take (n - q - 2)).all (fun c => c != ')')) with
    | some q => ((l.take q).reverse.dropWhile pyIsSpace).reverse
    | none => l
  else l

/-- Split on whitespace runs, dropping empties (`str.split()`). -/
def pyWords : ℕ → List Char → List String
  | 0, _ => []
  | fuel + 1, l =>
      let l1 := l.dropWhile pyIsSpace
      if l1.isEmpty then []
      else
        String.mk (l1.takeWhile (fun c => !pyIsSpace c)) ::
          pyWords fuel (l1.dropWhile (fun c => !pyIsSpace c))

/-- The suffix alternations of `_basic_clean`'s eight patterns, in source
order (`Co\.?` expands to trying `Co.` before `Co`, as the regex does). -/
def legalSuffixWordLists : List (List String) :=
  [ ["SARL", "SAS", "SA", "SASU", "EURL", "SNC", "SCI", "SCP", "SCOP", "SEL",
     "SELARL", "SELAS", "SELASU"],
    ["AG", "GmbH", "KG", "OHG", "GbR", "UG"],
    ["Ltd", "Limited", "LLC", "Inc", "Incorporated", "Corp", "Corporation",
     "Company", "Co.", "Co"],
    ["BV", "NV", "VOF", "CV"],
    ["SpA", "Srl", "Snc", "Sas"],
    ["AB", "HB", "KB"] ]

/-- Source `_basic_clean(name)`: strip, remove legal suffixes, trademark marks and
a trailing parenthesised group, collapse whitespace; fall back to the
original name if everything was removed. -/
def basicClean (name : String) : String :=
  let cleaned := (pyStrip name).toList
  let cleaned := legalSuffixWordLists.foldl
    (fun l ws => subClassWords pyIsSpace ws (l.length + 1) l) cleaned
  let cleaned := subClassWords (fun c => c == ',' || pyIsSpace c)
    ["®", "™", "©"] (cleaned.length + 1) cleaned
  let cleaned := stripTrailingParen cleaned
  let out := String.intercalate " " (pyWords (cleaned.length + 1) cleaned)
  if out = "" then name else out

/-! ## `CompanyValidator.validate` (company_validator.py lines 24-223) -/

/-- Lines 26-34: coerce the cell value to a cleaned string; non-strings are
`str()`-converted (`None` → `""`), a case-insensitive `"nan"` rendering is
treated as empty, and the result is stripped. -/
def companyInputStr (v : PyVal) : String :=
  match v with
  | .pstr s => pyStrip s
  | _ =>
      let s := match v with
        | .pnone => ""
        | other => pyValStr other
      let s := if pyLower s == "nan" then "" else s
      pyStrip s

/-- Comprehension `urls = [str(c) for c in raw if isinstance(c, str)]` when `raw` is a
list, `[]` otherwise. -/
def strElems : JsonVal → List String
  | .jarr xs => xs.filterMap (fun v => match v with | .jstr s => some s | _ => none)
  | _ => []

/-- The inner `try` (lines 156-181): returns `(data, explanation, urls)`.
When `json.loads` fails, `data` remains the initial `{}`; when a later
`.get` on a parsed non-object raises, `data` keeps the parsed value while
`urls` stays `[]` and the explanation records the parse error.  The
`.netError` case is unreachable (handled before parsing). -/
def parseResponse : SvcBehaviour → JsonVal × String × List String
  | .netError => (.jobj [], "", [])
  | .badText => (.jobj [], "Erreur de parsing JSON: <exception>", [])
  | .parsed v =>
      match pyGet v "explication" (.jstr "Explication non fournie par l\x27IA.") with
      | .error _ => (v, "Erreur de parsing JSON: <exception>", [])
      | .ok expl =>
          match pyGet v "citations" (.jarr []) with
          | .error _ => (v, "Erreur de parsing JSON: <exception>", [])
          | .ok raw => (v, jsonToStr expl, strElems raw)

/-- The normalised email-domain fragment (lines 206-207):
`re.sub(r"[^a-z0-9]", "", domain.lower().split("@")[-1].split(".")[0])`. -/
def domainFragment (emailDomain : String) : String :=
  azFilter (pyHead ((pyLast ((pyLower emailDomain).splitOn "@")).splitOn "."))

/-- The domain-match signal (lines 206-210): the normalized email-domain
fragment is non-empty and occurs as a substring of the normalized corrected
name. -/
def domainOk (emailDomain nomFinal : String) : Bool :=
  let domain := domainFragment emailDomain
  domain != "" && strContains domain (azFilter (pyLower nomFinal))

/-- The body of `validate`'s outer `try` (lines 137-218) in the exception
monad; a resulting `.error` is what the `except` clause catches. -/
def tryBody (svc : SvcBehaviour) (inputStr : String) (companyInput : PyVal)
    (emailDomain : String) : Except PyErr ValidationResult :=
  match svc with
  | .netError => .error .netError
  | _ =>
    let pr := parseResponse svc
    let data := pr.1
    let explanation := pr.2.1
    let urls := pr.2.2
    let citationStr := String.intercalate ";" urls
    -- if "nom_commercial" not in data or not data.get("nom_commercial"):
    -- (`or` short-circuits: the .get runs only when the key test came back
    -- false, and either operand can raise on a non-dict `data`)
    match pyIn "nom_commercial" data with
    | .error e => .error e
    | .ok isIn =>
    match (if isIn then (pyGet data "nom_commercial" .jnull).map (fun v => !pyTruthy v)
           else .ok true) with
    | .error e => .error e
    | .ok fallback =>
    if fallback then
      -- if not data.get("nom_commercial") and "nom_commercial" in data:
      match pyGet data "nom_commercial" .jnull with
      | .error e => .error e
      | .ok g =>
      match pyIn "nom_commercial" data with
      | .error e => .error e
      | .ok isIn2 =>
        let cleanedName := basicClean inputStr
        let conf := calibrate 0.1 urls.length false true
        let finalExplanation := if pyTruthy data then explanation
          else "Fallback: Nom nettoyé basiquement en raison d\x27une réponse invalide de l\x27IA."
        let finalExplanation := if !pyTruthy g && isIn2 then
            "Nom commercial non fourni par l\x27IA, utilisation du nom nettoyé."
          else finalExplanation
        .ok ⟨companyInput, cleanedName, conf, citationStr, finalExplanation⟩
    else
      match pyGetItem data "nom_commercial" with
      | .error e => .error e
      | .ok nomFinalJ =>
      match pyGet data "confidence" (.jnum (1 / 2)) with
      | .error e => .error e
      | .ok baseConfJ =>
      match pyFloat baseConfJ with
      | .error e => .error e
      | .ok baseConf =>
      -- nom_final.lower() raises unless the JSON value is a string
      match nomFinalJ with
      | .jstr nomFinal =>
        let dOk := domainOk emailDomain nomFinal
        match pyGet data "entreprise_connue" (.jbool false) with
        | .error e => .error e
        | .ok entrJ =>
          let unknownFlag := !pyTruthy entrJ
          let confidence := calibrate baseConf urls.length dOk unknownFlag
          .ok ⟨companyInput, nomFinal, confidence, citationStr, explanation⟩
      | _ => .error .attrError

/-- Embeds `CompanyValidator.validate`.  `client` is whether an external client is
configured, `svc` the external call's behaviour.  The second component
counts external requests issued; the outer `Except` is `.error` exactly
when an exception would escape to the caller. -/
def validate (client : Bool) (svc : SvcBehaviour) (companyInput : PyVal)
    (emailDomain : String) : Except PyErr (ValidationResult × ℕ) :=
  let s := companyInputStr companyInput
  if !client || s == "" then
    .ok (⟨companyInput, s, 0, "no_llm", ""⟩, 0)
  else
    match tryBody svc s companyInput emailDomain with
    | .ok r => .ok (r, 1)
    | .error _ =>
        .ok (⟨companyInput, basicClean s, 0.3, "error", "exception fallback"⟩, 1)

end CompanyValidator

/-! ## `NameValidator.validate` (name_validator.py lines 110-178) -/

namespace NameValidator

def errText : PyErr → String
  | .netError => "<network error>"
  | .jsonDecode => "<json decode error>"
  | .attrError => "<attribute error>"
  | .typeError => "<type error>"
  | .keyError => "<key error>"
  | .valueError => "<value error>"

/-- The body of `validate`'s `try` (lines 126-169) in the exception monad. -/
def tryBody (svc : SvcBehaviour) (nom prenom : String) :
    Except PyErr (ValidationResult × ValidationResult × String) :=
  match svc with
  | .netError => .error PyErr.netError
  | .badText => .error PyErr.jsonDecode
  | .parsed data =>
    -- conf_nom = _calibrate(float(data.get("confidence_nom", 0.0)), nom,
    --                       data.get("nom_corrige", nom))
    match pyGet data "confidence_nom" (.jnum 0) with
    | .error e => .error e
    | .ok cnJ =>
    match pyFloat cnJ with
    | .error e => .error e
    | .ok cn =>
    match pyGet data "nom_corrige" (.jstr nom) with
    | .error e => .error e
    | .ok ncJ =>
    -- _similarity lowercases the corrected value: non-strings raise here
    match ncJ with
    | .jstr ncS =>
      match pyGet data "confidence_prenom" (.jnum 0) with
      | .error e => .error e
      | .ok cpJ =>
      match pyFloat cpJ with
      | .error e => .error e
      | .ok cp =>
      match pyGet data "prenom_corrige" (.jstr prenom) with
      | .error e => .error e
      | .ok pcJ =>
      match pcJ with
      | .jstr pcS =>
        match pyGet data "reasoning" (.jstr "") with
        | .error e => .error e
        | .ok reasoningJ =>
        match pyGet data "corrections_appliquees" (.jstr "") with
        | .error e => .error e
        | .ok correctionsJ =>
          let confNom := calibrate cn nom ncS
          let confPrenom := calibrate cp prenom pcS
          let reasoning := jsonToStr reasoningJ
          let corrections := jsonToStr correctionsJ
          let expl :=
            if pyTruthy reasoningJ && pyTruthy correctionsJ then
              "Raisonnement: " ++ reasoning ++ ". Corrections: " ++ corrections ++ "."
            else if pyTruthy reasoningJ then "Raisonnement: " ++ reasoning ++ "."
            else if pyTruthy correctionsJ then "Corrections: " ++ corrections ++ "."
            else "Aucune explication détaillée fournie par l\x27IA."
          .ok (⟨.pstr nom, ncS, confNom, "gpt4.1-mini", ""⟩,
               ⟨.pstr prenom, pcS, confPrenom, "gpt4.1-mini", ""⟩, expl)
      | _ => .error PyErr.attrError
    | _ => .error PyErr.attrError

/-- Embeds `NameValidator.validate` (client flag, service behaviour, raw
arguments).  Returns the (last-name result, first-name result, explanation)
triple plus the count of external requests; the outer `Except` is `.error`
exactly when an exception would escape to the caller. -/
def validate (client : Bool) (svc : SvcBehaviour) (nom prenom _email : Option String) :
    Except PyErr ((ValidationResult × ValidationResult × String) × ℕ) :=
  let nomS := pyStrip (pyOrEmpty nom)
  let prenomS := pyStrip (pyOrEmpty prenom)
  if !client || (nomS == "" && prenomS == "") then
    .ok ((⟨.pstr nomS, nomS, 0, "no_llm", ""⟩,
          ⟨.pstr prenomS, prenomS, 0, "no_llm", ""⟩,
          "No LLM client or empty name/prenom input."), 0)
  else
    match tryBody svc nomS prenomS with
    | .ok r => .ok (r, 1)
    | .error e =>
        .ok ((⟨.pstr nomS, nomS, 0, "error", ""⟩,
              ⟨.pstr prenomS, prenomS, 0, "error", ""⟩,
              "Erreur lors de la validation du nom: " ++ errText e), 1)

end NameValidator

/-! ## The row-processing pipeline (prospect_cleaner.py lines 27-64, 106-112)

`clean` spawns one `_process_row` task per row index over a shared
`asyncio.Semaphore(max_concurrency)`.  Under asyncio's cooperative
scheduling the only suspension points of a task are the semaphore acquire
and the two awaited validator calls, and the final block of `df.at` writes
runs atomically; the pipeline is therefore modelled as a labelled
transition system interleaving those atomic steps. -/

namespace Pipeline

/-- Progress of one `_process_row` task through its suspension points. -/
inductive Phase where
  | ready           -- task created, waiting at `async with self.sem`
  | acquired        -- permit held, before the name-validator call
  | nameCalling     -- name-validator call outstanding
  | nameDone        -- name-validator returned (with success or error outcome)
  | companyCalling  -- company-validator call outstanding
  | companyDone     -- company-validator returned
  | writing         -- left the `async with` block: permit released
  | done            -- result columns written
deriving DecidableEq

structure RunState where
  sem : ℕ              -- free permits of the semaphore
  phases : List Phase  -- one entry per row task
  tags : List String   -- the source_validation column
deriving DecidableEq

inductive Action where
  | acquire
  | startName
  | finishName (ok : Bool)    -- `ok` is immaterial: the validator never raises
  | startCompany
  | finishCompany (ok : Bool)
  | release
  | writeRow (src : String)   -- the grouped `df.at` writes; src = n_res.source
deriving DecidableEq

/-- One scheduler step: task `i` advances through `_process_row`. -/
inductive Step : RunState → ℕ × Action → RunState → Prop
  | acquire {s : RunState} {i m : ℕ} (hp : s.phases.get? i = some .ready)
      (hs : s.sem = m + 1) :
      Step s (i, .acquire) ⟨m, s.phases.set i .acquired, s.tags⟩
  | startName {s : RunState} {i : ℕ} (hp : s.phases.get? i = some .acquired) :
      Step s (i, .startName) ⟨s.sem, s.phases.set i .nameCalling, s.tags⟩
  | finishName {s : RunState} {i : ℕ} {ok : Bool}
      (hp : s.phases.get? i = some .nameCalling) :
      Step s (i, .finishName ok) ⟨s.sem, s.phases.set i .nameDone, s.tags⟩
  | startCompany {s : RunState} {i : ℕ} (hp : s.phases.get? i = some .nameDone) :
      Step s (i, .startCompany) ⟨s.sem, s.phases.set i .companyCalling, s.tags⟩
  | finishCompany {s : RunState} {i : ℕ} {ok : Bool}
      (hp : s.phases.get? i = some .companyCalling) :
      Step s (i, .finishCompany ok) ⟨s.sem, s.phases.set i .companyDone, s.tags⟩
  | release {s : RunState} {i : ℕ} (hp : s.phases.get? i = some .companyDone) :
      Step s (i, .release) ⟨s.sem + 1, s.phases.set i .writing, s.tags⟩
  | writeRow {s : RunState} {i : ℕ} {src : String}
      (hp : s.phases.get? i = some .writing) :
      Step s (i, .writeRow src) ⟨s.sem, s.phases.set i .done, s.tags.set i ("nom:" ++ src)⟩

/-- A finite interleaved execution. -/
inductive Trace : RunState → List (ℕ × Action) → RunState → Prop
  | nil (s : RunState) : Trace s [] s
  | cons {s s1 s2 : RunState} {e : ℕ × Action} {es : List (ℕ × Action)} :
      Step s e s1 → Trace s1 es s2 → Trace s (e :: es) s2

/-- The state after `clean` has seeded the result columns and created the
tasks: `C` free permits, every task ready, every source tag empty. -/
def initState (C n : ℕ) : RunState :=
  ⟨C, List.replicate n .ready, List.replicate n ""⟩

/-- Phases that hold a semaphore permit. -/
def isHolding : Phase → Bool
  | .acquired | .nameCalling | .nameDone | .companyCalling | .companyDone => true
  | _ => false

/-- Phases with an external validator call outstanding. -/
def isCalling : Phase → Bool
  | .nameCalling | .companyCalling => true
  | _ => false

def countCalling (s : RunState) : ℕ := s.phases.countP isCalling

def countHolding (s : RunState) : ℕ := s.phases.countP isHolding

/-- Rank of a phase along the task's linear progression. -/
def phaseRank : Phase → ℕ
  | .ready => 0
  | .acquired => 1
  | .nameCalling => 2
  | .nameDone => 3
  | .companyCalling => 4
  | .companyDone => 5
  | .writing => 6
  | .done => 7

/-- Value 1 when task `i`'s phase has rank at least `r`, else 0. -/
def pastFlag (r : ℕ) (s : RunState) (i : ℕ) : ℕ :=
  ((s.phases.get? i).map (fun p => if r ≤ phaseRank p then 1 else 0)).getD 0

/-- The rank a task reaches by performing an action (each action moves a
task from rank `r - 1` to rank `r`). -/
def actionRank : Action → ℕ
  | .acquire => 1
  | .startName => 2
  | .finishName _ => 3
  | .startCompany => 4
  | .finishCompany _ => 5
  | .release => 6
  | .writeRow _ => 7

/-- The event is task `i` writing its row (rank-7 action = `writeRow`). -/
def isWriteEvent (i : ℕ) (e : ℕ × Action) : Bool :=
  e.1 == i && (actionRank e.2 == 7)

/-- The event is task `i`'s name-validator call returning. -/
def isFinishNameEvent (i : ℕ) (e : ℕ × Action) : Bool :=
  e.1 == i && (actionRank e.2 == 3)

/-- The event is task `i`'s company-validator call returning. -/
def isFinishCompanyEvent (i : ℕ) (e : ℕ × Action) : Bool :=
  e.1 == i && (actionRank e.2 == 5)

/-- Whether row `i`'s source tag is set to a non-empty string. -/
def tagSet (s : RunState) (i : ℕ) : Bool :=
  ((s.tags.get? i).map (fun t => t != "")).getD false

/-! ### Counting lemmas -/

theorem countP_set_of_get? {α : Type} {l : List α} {i : ℕ} {x : α}
    (h : l.get? i = some x) (y : α) (p : α → Bool) :
    (l.set i y).countP p + (if p x then 1 else 0) =
      l.countP p + (if p y then 1 else 0) := by
  induction l generalizing i with
  | nil => simp at h
  | cons a as ih =>
      cases i with
      | zero =>
          simp only [List.get?] at h
          cases h
          simp only [List.set, List.countP_cons]
          omega
      | succ m =>
          simp only [List.get?] at h
          have := ih h
          simp only [List.set, List.countP_cons]
          omega

theorem get?_set_self_of_get? {α : Type} {l : List α} {i : ℕ} {x : α}
    (h : l.get? i = some x) (y : α) : (l.set i y).get? i = some y := by
  induction l generalizing i with
  | nil => simp at h
  | cons a as ih =>
      cases i with
      | zero => rfl
      | succ m =>
          simp only [List.get?] at h ⊢
          exact ih h

theorem get?_replicate {α : Type} (a : α) (n i : ℕ) :
    (List.replicate n a).get? i = if i < n then some a else none := by
  induction n generalizing i with
  | zero => simp
  | succ m ih =>
      cases i with
      | zero => simp [List.replicate]
      | succ k => simpa [List.replicate, Nat.succ_lt_succ_iff] using ih k

/-! ### The semaphore invariant -/

/-- Free permits plus held permits is the capacity. -/
def SemInv (C : ℕ) (s : RunState) : Prop := s.sem + countHolding s = C

theorem step_semInv {C : ℕ} {s s' : RunState} {e : ℕ × Action}
    (hst : Step s e s') (h : SemInv C s) : SemInv C s' := by
  unfold SemInv countHolding at h ⊢
  cases hst with
  | acquire hp hs =>
      have hc := countP_set_of_get? hp Phase.acquired isHolding
      simp [isHolding] at hc
      dsimp only
      omega
  | startName hp =>
      have hc := countP_set_of_get? hp Phase.nameCalling isHolding
      simp [isHolding] at hc
      dsimp only
      omega
  | finishName hp =>
      have hc := countP_set_of_get? hp Phase.nameDone isHolding
      simp [isHolding] at hc
      dsimp only
      omega
  | startCompany hp =>
      have hc := countP_set_of_get? hp Phase.companyCalling isHolding
      simp [isHolding] at hc
      dsimp only
      omega
  | finishCompany hp =>
      have hc := countP_set_of_get? hp Phase.companyDone isHolding
      simp [isHolding] at hc
      dsimp only
      omega
  | release hp =>
      have hc := countP_set_of_get? hp Phase.writing isHolding
      simp [isHolding] at hc
      dsimp only
      omega
  | writeRow hp =>
      have hc := countP_set_of_get? hp Phase.done isHolding
      simp [isHolding] at hc
      dsimp only
      omega

theorem trace_semInv {C : ℕ} {s s' : RunState} {tr : List (ℕ × Action)}
    (h : Trace s tr s') (hinv : SemInv C s) : SemInv C s' := by
  induction h with
  | nil => exact hinv
  | cons hstep _ ih => exact ih (step_semInv hstep hinv)

theorem countP_le_of_imp {α : Type} (p q : α → Bool) (l : List α)
    (h : ∀ a, p a = true → q a = true) : l.countP p ≤ l.countP q := by
  induction l with
  | nil => simp
  | cons a as ih =>
      simp only [List.countP_cons]
      by_cases hpa : p a = true
      · simp [hpa, h a hpa]; omega
      · have : (if p a then 1 else 0) = 0 := by simp [hpa]
        omega

theorem countCalling_le_countHolding (s : RunState) :
    countCalling s ≤ countHolding s :=
  countP_le_of_imp _ _ _ (fun a h => by cases a <;> simp_all [isCalling, isHolding])

/-! ### Per-task progress counting -/

theorem step_pastFlag {s s' : RunState} {j : ℕ} {a : Action}
    (hst : Step s (j, a) s') (i r : ℕ) :
    pastFlag r s' i =
      pastFlag r s i + (if (j == i && (actionRank a == r)) then 1 else 0) := by
  by_cases hij : j = i
  · subst hij
    cases hst with
    | acquire hp hs =>
        unfold pastFlag
        rw [get?_set_self_of_get? hp, hp]
        simp only [actionRank, phaseRank, beq_self_eq_true, Bool.true_and,
          Option.map_some', Option.getD_some, beq_iff_eq]
        split_ifs <;> omega
    | startName hp =>
        unfold pastFlag
        rw [get?_set_self_of_get? hp, hp]
        simp only [actionRank, phaseRank, beq_self_eq_true, Bool.true_and,
          Option.map_some', Option.getD_some, beq_iff_eq]
        split_ifs <;> omega
    | finishName hp =>
        unfold pastFlag
        rw [get?_set_self_of_get? hp, hp]
        simp only [actionRank, phaseRank, beq_self_eq_true, Bool.true_and,
          Option.map_some', Option.getD_some, beq_iff_eq]
        split_ifs <;> omega
    | startCompany hp =>
        unfold pastFlag
        rw [get?_set_self_of_get? hp, hp]
        simp only [actionRank, phaseRank, beq_self_eq_true, Bool.true_and,
          Option.map_some', Option.getD_some, beq_iff_eq]
        split_ifs <;> omega
    | finishCompany hp =>
        unfold pastFlag
        rw [get?_set_self_of_get? hp, hp]
        simp only [actionRank, phaseRank, beq_self_eq_true, Bool.true_and,
          Option.map_some', Option.getD_some, beq_iff_eq]
        split_ifs <;> omega
    | release hp =>
        unfold pastFlag
        rw [get?_set_self_of_get? hp, hp]
        simp only [actionRank, phaseRank, beq_self_eq_true, Bool.true_and,
          Option.map_some', Option.getD_some, beq_iff_eq]
        split_ifs <;> omega
    | writeRow hp =>
        unfold pastFlag
        rw [get?_set_self_of_get? hp, hp]
        simp only [actionRank, phaseRank, beq_self_eq_true, Bool.true_and,
          Option.map_some', Option.getD_some, beq_iff_eq]
        split_ifs <;> omega
  · have hbeq : (j == i) = false := by simp [hij]
    simp only [hbeq, Bool.false_and, Bool.if_false_left, Bool.false_eq_true,
      if_false, Nat.add_zero]
    cases hst <;>
      · unfold pastFlag
        dsimp only
        rw [List.get?_set_ne _ _ hij]

theorem trace_pastFlag {s s' : RunState} {tr : List (ℕ × Action)}
    (h : Trace s tr s') (i r : ℕ) :
    pastFlag r s' i =
      pastFlag r s i + tr.countP (fun e => e.1 == i && (actionRank e.2 == r)) := by
  induction h with
  | nil => simp
  | cons hstep htr ih =>
      rename_i s0 s1 s2 e es
      obtain ⟨j, a⟩ := e
      have h1 := step_pastFlag hstep i r
      simp only [List.countP_cons] at *
      omega

/-- The tag column always has one entry per task. -/
def WF (s : RunState) : Prop := s.tags.length = s.phases.length

theorem step_WF {s s' : RunState} {e : ℕ × Action} (hst : Step s e s')
    (h : WF s) : WF s' := by
  unfold WF at h ⊢
  cases hst <;> simp [List.length_set, h]

theorem nomTag_ne_empty (src : String) : ¬("nom:" ++ src = "") := by
  intro h
  have hl := congrArg String.length h
  simp [String.length_append] at hl
  exact absurd hl.1 (by decide)

theorem step_tagSet {s s' : RunState} {j : ℕ} {a : Action}
    (hst : Step s (j, a) s') (hwf : WF s) (i : ℕ) :
    tagSet s' i = (tagSet s i || isWriteEvent i (j, a)) := by
  by_cases hij : j = i
  · subst hij
    cases hst with
    | writeRow hp =>
        rename_i src
        unfold tagSet isWriteEvent
        dsimp only
        simp only [actionRank, beq_self_eq_true, Bool.true_and, Bool.or_true]
        have hjlt : j < s.tags.length := by
          rw [hwf]
          obtain ⟨h, _⟩ := List.get?_eq_some.mp hp
          exact h
        have htag : s.tags.get? j = some (s.tags.get ⟨j, hjlt⟩) :=
          List.get?_eq_get hjlt
        rw [get?_set_self_of_get? htag]
        simp only [Option.map_some', Option.getD_some, bne_iff_ne, ne_eq]
        exact nomTag_ne_empty src
    | acquire hp hs => unfold tagSet isWriteEvent; simp [actionRank]
    | startName hp => unfold tagSet isWriteEvent; simp [actionRank]
    | finishName hp => unfold tagSet isWriteEvent; simp [actionRank]
    | startCompany hp => unfold tagSet isWriteEvent; simp [actionRank]
    | finishCompany hp => unfold tagSet isWriteEvent; simp [actionRank]
    | release hp => unfold tagSet isWriteEvent; simp [actionRank]
  · have hbeq : isWriteEvent i (j, a) = false := by
      unfold isWriteEvent
      simp [hij]
    rw [hbeq, Bool.or_false]
    cases hst <;>
      · unfold tagSet
        dsimp only
        try rw [List.get?_set_ne _ _ hij]

theorem trace_tagSet {s s' : RunState} {tr : List (ℕ × Action)}
    (h : Trace s tr s') (hwf : WF s) (i : ℕ) :
    tagSet s' i = (tagSet s i || tr.any (isWriteEvent i)) := by
  induction h with
  | nil => simp
  | cons hstep htr ih =>
      rename_i s0 s1 s2 e es
      obtain ⟨j, a⟩ := e
      have h1 := step_tagSet hstep hwf i
      have h2 := ih (step_WF hstep hwf)
      simp only [List.any_cons] at *
      rw [h2, h1]
      cases tagSet s0 i <;> cases isWriteEvent i (j, a) <;> simp

theorem trace_append {s s2 : RunState} {t1 t2 : List (ℕ × Action)}
    (h : Trace s (t1 ++ t2) s2) : ∃ smid, Trace s t1 smid ∧ Trace smid t2 s2 := by
  induction t1 generalizing s with
  | nil => exact ⟨s, Trace.nil s, h⟩
  | cons e es ih =>
      cases h with
      | cons hstep htr =>
          obtain ⟨m, h1, h2⟩ := ih htr
          exact ⟨m, Trace.cons hstep h1, h2⟩

end Pipeline

/-! ## `_save_loop` (prospect_cleaner.py lines 67-80) -/

namespace SaveLoop

/-- The loop's bookkeeping (`last_save`, `processed`). -/
structure LoopState where
  lastSave : ℚ
  processed : ℕ
deriving DecidableEq

/-- What one iteration observes after its 1 s sleep: the clock value and
the number of rows whose source tag is non-empty.  (The source reads
`time.time()` a second time when bookkeeping a save, microseconds later;
both reads are modelled by the same observation instant.) -/
structure Obs where
  t : ℚ
  c : ℕ
deriving DecidableEq

/-- One iteration of the `while True` body: returns the new bookkeeping,
the number of `write_csv` calls performed, and whether the loop returned. -/
def iterStep (batchSize total : ℕ) (st : LoopState) (o : Obs) :
    LoopState × ℕ × Bool :=
  let doSave : Bool :=
    decide ((o.c : ℤ) - (st.processed : ℤ) ≥ (batchSize : ℤ)) ||
    decide (o.t - st.lastSave > 10)
  let st' := if doSave then LoopState.mk o.t o.c else st
  (st', (if doSave then 1 else 0) + (if o.c = total then 1 else 0), o.c == total)

/-- The loop run over a (sufficiently long) sequence of observations:
total `write_csv` calls and whether the loop returned. -/
def run (batchSize total : ℕ) : LoopState → List Obs → ℕ × Bool
  | _, [] => (0, false)
  | st, o :: os =>
      let r := iterStep batchSize total st o
      if r.2.2 then (r.2.1, true)
      else
        let rest := run batchSize total r.1 os
        (r.2.1 + rest.1, rest.2)

end SaveLoop

/-! ## Spec-side formulations used by refinement claims -/

/-- The organization validator's calibration as the spec phrases it: a
bonus proportional to the citation count, capped at a fixed maximum
(`0.1`); a fixed bonus `0.1` on a domain match; a multiplicative penalty
`0.3` on the base confidence when the entity is not confidently
identified; clamp to `[0,1]`; round up to the nearest hundredth. -/
def specCalibrateOrg (base : ℚ) (citations : ℕ) (domainMatch notConfident : Bool) : ℚ :=
  let citationBonus : ℚ := min ((citations : ℚ) * 0.025) 0.1
  let domainBonus : ℚ := if domainMatch then 0.1 else 0
  let penalized : ℚ := if notConfident then 0.3 * base else base
  roundUpHundredth (clamp01 (penalized + citationBonus + domainBonus))

/-! ## Supporting lemmas on the embedded primitives -/

theorem strContains_eq_true_iff (needle hay : String) :
    strContains needle hay = true ↔ needle.toList <:+: hay.toList := by
  unfold strContains
  rw [List.any_eq_true]
  constructor
  · rintro ⟨k, _hk, hpre⟩
    have hp : needle.toList <+: hay.toList.drop k :=
      List.isPrefixOf_iff_prefix.mp hpre
    obtain ⟨t, ht⟩ := hp
    refine ⟨hay.toList.take k, t, ?_⟩
    rw [List.append_assoc, ht, List.take_append_drop]
  · rintro ⟨s, t, hst⟩
    refine ⟨s.length, ?_, ?_⟩
    · rw [List.mem_range]
      have : hay.toList.length = s.length + (needle.toList.length + t.length) := by
        rw [← hst]
        simp [List.length_append]
      omega
    · rw [← hst]
      have hdrop : (s ++ (needle.toList ++ t)).drop s.length = needle.toList ++ t := by
        rw [List.drop_left]
      rw [List.append_assoc] at hst ⊢
      rw [hdrop]
      exact List.isPrefixOf_iff_prefix.mpr ⟨t, rfl⟩

namespace CompanyValidator

theorem calibrate_eq_spec (base : ℚ) (c : ℕ) (dm uf : Bool) :
    calibrate base c dm uf = specCalibrateOrg base c dm uf := by
  unfold calibrate specCalibrateOrg
  have hcast : ((min c 4 : ℕ) : ℚ) = min (c : ℚ) 4 := by
    rcases le_total c 4 with h | h
    · rw [min_eq_left h, min_eq_left (by exact_mod_cast h)]
    · rw [min_eq_right h, min_eq_right (by exact_mod_cast h)]
      norm_num
  have hmin : min (c : ℚ) 4 * (1 / 40) = min ((c : ℚ) * (1 / 40)) (1 / 10) := by
    rcases le_total (c : ℚ) 4 with h | h
    · rw [min_eq_left h, min_eq_left (by linarith)]
    · rw [min_eq_right h, min_eq_right (by linarith)]
      norm_num
  cases dm <;> cases uf <;>
    · simp only [eq_self_iff_true, Bool.false_eq_true, if_true, if_false, ite_true, ite_false]
      apply congrArg roundUpHundredth
      apply congrArg clamp01
      rw [show (0.025 : ℚ) = 1 / 40 by norm_num, show (0.1 : ℚ) = 1 / 10 by norm_num,
        hcast, hmin]
      ring

end CompanyValidator

/-! ## Claim theorems -/

/-- Claim C6: every confidence returned by either validator's calibration
step lies in `[0, 1]`; both calibrations end by rounding the clamped raw
value up to the nearest hundredth (ceiling, not nearest): raw `0.7231`
rounds to `0.73` (not `0.72`), raw `0.70` stays `0.70`. -/
theorem C6_calibration_bounds_and_ceiling :
    (∀ (conf : ℚ) (c : ℕ) (dm uf : Bool),
        0 ≤ CompanyValidator.calibrate conf c dm uf ∧
          CompanyValidator.calibrate conf c dm uf ≤ 1) ∧
    (∀ (base : ℚ) (a b : String),
        0 ≤ NameValidator.calibrate base a b ∧ NameValidator.calibrate base a b ≤ 1) ∧
    (∀ (conf : ℚ) (c : ℕ) (dm uf : Bool),
        CompanyValidator.calibrate conf c dm uf =
          roundUpHundredth (clamp01 ((if uf then conf * 0.3 else conf) +
            (((min c 4 : ℕ) : ℚ) * 0.025 + if dm then 0.1 else 0)))) ∧
    (∀ (base : ℚ) (a b : String),
        NameValidator.calibrate base a b =
          roundUpHundredth (clamp01 (base + NameValidator.similarity a b * 0.2 -
            (1 - NameValidator.similarity a b) * 0.4))) ∧
    roundUpHundredth 0.7231 = 0.73 ∧ roundUpHundredth 0.7 = 0.7 ∧
    (0.73 : ℚ) ≠ 0.72 := by
  refine ⟨?_, ?_, ?_, ?_, ?_, ?_, by norm_num⟩
  · exact fun conf c dm uf =>
      ⟨CompanyValidator.companyCalibrate_nonneg conf c dm uf,
       CompanyValidator.companyCalibrate_le_one conf c dm uf⟩
  · exact fun base a b =>
      ⟨NameValidator.nameCalibrate_nonneg base a b, NameValidator.nameCalibrate_le_one base a b⟩
  · intro conf c dm uf
    unfold CompanyValidator.calibrate
    cases dm <;> cases uf <;> simp
  · intro base a b
    rfl
  · unfold roundUpHundredth
    have hc : ⌈(0.7231 : ℚ) * 100⌉ = 73 := by
      rw [Int.ceil_eq_iff]
      norm_num
    rw [hc]
    norm_num
  · unfold roundUpHundredth
    have hc : ⌈(0.7 : ℚ) * 100⌉ = 70 := by
      rw [Int.ceil_eq_iff]
      norm_num
    rw [hc]
    norm_num

/-- Claim C7: the organization validator's calibration computes a
citation-count bonus capped at a fixed maximum, plus a fixed bonus when the
normalized email domain is a substring of the normalized corrected name, a
multiplicative penalty on the base confidence when the entity is flagged
not confidently identified, then clamps to `[0, 1]` and rounds up to the
nearest hundredth — i.e. it coincides with the spec-side formula, and the
domain-match flag is exactly the normalized-substring condition. -/
theorem C7_company_calibration_refines_spec :
    (∀ (base : ℚ) (c : ℕ) (dm uf : Bool),
        CompanyValidator.calibrate base c dm uf = specCalibrateOrg base c dm uf) ∧
    (∀ (emailDomain nomFinal : String),
        CompanyValidator.domainOk emailDomain nomFinal = true ↔
          (CompanyValidator.domainFragment emailDomain ≠ "" ∧
            (CompanyValidator.domainFragment emailDomain).toList <:+:
              (azFilter (pyLower nomFinal)).toList)) := by
  refine ⟨CompanyValidator.calibrate_eq_spec, ?_⟩
  intro emailDomain nomFinal
  unfold CompanyValidator.domainOk
  rw [Bool.and_eq_true, bne_iff_ne, strContains_eq_true_iff]

/-- Claim C8: the identity validator's calibration equals the base
confidence adjusted by a similarity-proportional bonus (`0.2·sim`, the
smaller coefficient) minus a penalty growing as similarity decreases
(`0.4·(1−sim)`, the larger coefficient), clamped to `[0, 1]` and
ceiling-rounded to the hundredth; consequently it is monotone in the
string similarity of original and corrected value. -/
theorem C8_name_calibration_similarity :
    (∀ (base : ℚ) (a b : String),
        NameValidator.calibrate base a b =
          roundUpHundredth (clamp01 (base + NameValidator.similarity a b * 0.2 -
            (1 - NameValidator.similarity a b) * 0.4))) ∧
    (∀ (base : ℚ) (a b c d : String),
        NameValidator.similarity a b ≤ NameValidator.similarity c d →
        NameValidator.calibrate base a b ≤ NameValidator.calibrate base c d) := by
  constructor
  · intro base a b
    rfl
  · intro base a b c d h
    unfold NameValidator.calibrate
    apply roundUpHundredth_mono
    apply clamp01_mono
    linarith

/-- Witness for C8: a concrete similarity comparison (identical strings
have similarity 1, an empty vs. non-empty pair similarity 0) and the
induced confidence comparison. -/
theorem C8_witness :
    NameValidator.similarity "" "a" ≤ NameValidator.similarity "" "" ∧
    NameValidator.calibrate 0.9 "" "a" ≤ NameValidator.calibrate 0.9 "" "" := by
  have h1 : NameValidator.similarity "" "a" = 0 := by
    norm_num [NameValidator.similarity, NameValidator.smRatio, NameValidator.matchingSum,
      NameValidator.findLongestMatch, NameValidator.flmScanRow, NameValidator.flmRowGo,
      pyLower, List.range_succ, List.range_zero]
  have h2 : NameValidator.similarity "" "" = 1 := by
    simp [NameValidator.similarity, NameValidator.smRatio, pyLower]
  have hle : NameValidator.similarity "" "a" ≤ NameValidator.similarity "" "" := by
    rw [h1, h2]
    norm_num
  exact ⟨hle, C8_name_calibration_similarity.2 0.9 "" "a" "" "" hle⟩

namespace NameValidator

/-- Every successful pass through the name validator's `try` body produces
calibrated confidences, hence values in `[0, 1]`. -/
theorem nameTryBody_ok_conf {svc : SvcBehaviour} {nom prenom : String}
    {r : ValidationResult × ValidationResult × String}
    (h : tryBody svc nom prenom = .ok r) :
    0 ≤ r.1.confidence ∧ r.1.confidence ≤ 1 ∧
      0 ≤ r.2.1.confidence ∧ r.2.1.confidence ≤ 1 := by
  unfold tryBody at h
  repeat' split at h
  all_goals cases h
  all_goals exact ⟨nameCalibrate_nonneg _ _ _, nameCalibrate_le_one _ _ _,
    nameCalibrate_nonneg _ _ _, nameCalibrate_le_one _ _ _⟩

end NameValidator

namespace CompanyValidator

/-- The confidence of a successful company-validator `try` body is in
`[0, 1]` (vacuous on the error side). -/
def confInRange : Except PyErr ValidationResult → Prop
  | .ok r => 0 ≤ r.confidence ∧ r.confidence ≤ 1
  | .error _ => True

theorem tryBody_conf (svc : SvcBehaviour) (inputStr : String)
    (companyInput : PyVal) (emailDomain : String) :
    confInRange (tryBody svc inputStr companyInput emailDomain) := by
  unfold tryBody
  cases svc
  all_goals
    repeat
      first
      | trivial
      | (exact ⟨companyCalibrate_nonneg _ _ _ _, companyCalibrate_le_one _ _ _ _⟩)
      | split
      | dsimp only []

/-- Every successful pass through the company validator's `try` body
produces a calibrated confidence, hence a value in `[0, 1]`. -/
theorem companyTryBody_ok_conf {svc : SvcBehaviour} {inputStr : String}
    {companyInput : PyVal} {emailDomain : String} {r : ValidationResult}
    (h : tryBody svc inputStr companyInput emailDomain = .ok r) :
    0 ≤ r.confidence ∧ r.confidence ≤ 1 := by
  have key := tryBody_conf svc inputStr companyInput emailDomain
  rw [h] at key
  exact key

end CompanyValidator

/-- Claim C1: for every input and every behaviour of the external service
(network error, unparseable text, arbitrary parsed JSON), both validators
return a well-formed outcome — all confidences in `[0, 1]` — and never
propagate an exception: the exception-monad embedding always returns
`.ok`. -/
theorem C1_validators_never_raise :
    (∀ (client : Bool) (svc : SvcBehaviour) (nom prenom email : Option String),
        ∃ r n, NameValidator.validate client svc nom prenom email = .ok (r, n) ∧
          0 ≤ r.1.confidence ∧ r.1.confidence ≤ 1 ∧
          0 ≤ r.2.1.confidence ∧ r.2.1.confidence ≤ 1) ∧
    (∀ (client : Bool) (svc : SvcBehaviour) (inp : PyVal) (dom : String),
        ∃ r n, CompanyValidator.validate client svc inp dom = .ok (r, n) ∧
          0 ≤ r.confidence ∧ r.confidence ≤ 1) := by
  constructor
  · intro client svc nom prenom email
    unfold NameValidator.validate
    dsimp only []
    split
    · exact ⟨_, 0, rfl, le_refl 0, by norm_num, le_refl 0, by norm_num⟩
    · cases htb : NameValidator.tryBody svc (pyStrip (pyOrEmpty nom))
        (pyStrip (pyOrEmpty prenom)) with
      | ok rr =>
          have hb := NameValidator.nameTryBody_ok_conf htb
          exact ⟨rr, 1, rfl, hb.1, hb.2.1, hb.2.2.1, hb.2.2.2⟩
      | error e =>
          exact ⟨_, 1, rfl, le_refl 0, by norm_num, le_refl 0, by norm_num⟩
  · intro client svc inp dom
    unfold CompanyValidator.validate
    dsimp only []
    split
    · exact ⟨_, 0, rfl, le_refl 0, by norm_num⟩
    · cases htb : CompanyValidator.tryBody svc (CompanyValidator.companyInputStr inp) inp dom with
      | ok rr =>
          have hb := CompanyValidator.companyTryBody_ok_conf htb
          exact ⟨rr, 1, rfl, hb.1, hb.2⟩
      | error e =>
          exact ⟨_, 1, rfl, by norm_num, by norm_num⟩

/-- Counterexample to claim C4 as stated: a failing (network-error) call to
the organization validator returns confidence `0.3`, not `0.0`. -/
theorem C4_counterexample :
    CompanyValidator.validate true .netError (.pstr "Acme") "" =
      .ok (⟨.pstr "Acme", "Acme", 0.3, "error", "exception fallback"⟩, 1) ∧
    (0.3 : ℚ) ≠ 0 := ⟨rfl, by norm_num⟩

/-- Claim C4 (amended): the identity validator's failure outcome is
`(original, original, 0.0, error)` as claimed; the organization validator,
however, returns `(raw input, basic-cleaned input, 0.3, error)` on a
network error, and handles a malformed JSON response — or one missing the
required `nom_commercial` key — inside its parser, returning the
basic-cleaned fallback with the calibrated low confidence `0.03` and the
(empty) citation join — not `"error"` — as provenance. -/
theorem C4_amended_failure_outcomes :
    (∀ (svc : SvcBehaviour) (nom prenom email : Option String),
        (svc = .netError ∨ svc = .badText) →
        ¬(pyStrip (pyOrEmpty nom) = "" ∧ pyStrip (pyOrEmpty prenom) = "") →
        ∃ expl, NameValidator.validate true svc nom prenom email =
          .ok ((⟨.pstr (pyStrip (pyOrEmpty nom)), pyStrip (pyOrEmpty nom), 0, "error", ""⟩,
                ⟨.pstr (pyStrip (pyOrEmpty prenom)), pyStrip (pyOrEmpty prenom), 0,
                 "error", ""⟩,
                expl), 1)) ∧
    (∀ (inp : PyVal) (dom : String),
        CompanyValidator.companyInputStr inp ≠ "" →
        CompanyValidator.validate true .netError inp dom =
          .ok (⟨inp, CompanyValidator.basicClean (CompanyValidator.companyInputStr inp), 0.3, "error",
                "exception fallback"⟩, 1)) ∧
    (∀ (inp : PyVal) (dom : String),
        CompanyValidator.companyInputStr inp ≠ "" →
        CompanyValidator.validate true .badText inp dom =
          .ok (⟨inp, CompanyValidator.basicClean (CompanyValidator.companyInputStr inp),
                CompanyValidator.calibrate 0.1 0 false true, "",
                "Fallback: Nom nettoyé basiquement en raison d\x27une réponse invalide de l\x27IA."⟩,
               1)) ∧
    (∀ (inp : PyVal) (dom : String),
        CompanyValidator.companyInputStr inp ≠ "" →
        CompanyValidator.validate true (.parsed (.jobj [])) inp dom =
          .ok (⟨inp, CompanyValidator.basicClean (CompanyValidator.companyInputStr inp),
                CompanyValidator.calibrate 0.1 0 false true, "",
                "Fallback: Nom nettoyé basiquement en raison d\x27une réponse invalide de l\x27IA."⟩,
               1)) ∧
    CompanyValidator.calibrate 0.1 0 false true = 0.03 ∧ ("" : String) ≠ "error" := by
  refine ⟨?_, ?_, ?_, ?_, ?_, by decide⟩
  · intro svc nom prenom email hsvc hne
    have hcond : (pyStrip (pyOrEmpty nom) == "" && (pyStrip (pyOrEmpty prenom) == ""))
        = false := by
      cases h1 : pyStrip (pyOrEmpty nom) == "" <;>
        cases h2 : pyStrip (pyOrEmpty prenom) == "" <;> simp_all
    rcases hsvc with rfl | rfl <;>
      · unfold NameValidator.validate
        simp only [Bool.not_true, Bool.false_or, hcond, Bool.false_eq_true, if_false]
        exact ⟨_, rfl⟩
  · intro inp dom hne
    have hcond : (CompanyValidator.companyInputStr inp == "") = false := by simpa using hne
    unfold CompanyValidator.validate
    simp only [Bool.not_true, Bool.false_or, hcond, Bool.false_eq_true, if_false]
    rfl
  · intro inp dom hne
    have hcond : (CompanyValidator.companyInputStr inp == "") = false := by simpa using hne
    unfold CompanyValidator.validate
    simp only [Bool.not_true, Bool.false_or, hcond, Bool.false_eq_true, if_false]
    rfl
  · intro inp dom hne
    have hcond : (CompanyValidator.companyInputStr inp == "") = false := by simpa using hne
    unfold CompanyValidator.validate
    simp only [Bool.not_true, Bool.false_or, hcond, Bool.false_eq_true, if_false]
    rfl
  · have e1 : CompanyValidator.calibrate 0.1 0 false true
        = roundUpHundredth (clamp01 ((0.1 : ℚ) * 0.3 + ((min 0 4 : ℕ) : ℚ) * 0.025)) := rfl
    have e2 : ((0.1 : ℚ) * 0.3 + ((min 0 4 : ℕ) : ℚ) * 0.025) = 3 / 100 := by norm_num
    have e3 : clamp01 (3 / 100 : ℚ) = 3 / 100 := by
      unfold clamp01
      rw [max_eq_left (by norm_num), min_eq_left (by norm_num)]
    have e4 : ⌈(3 / 100 : ℚ) * 100⌉ = 3 := by
      rw [Int.ceil_eq_iff]
      norm_num
    rw [e1, e2, e3]
    unfold roundUpHundredth
    rw [e4]
    norm_num

/-- Witness for the amended C4: concrete failing calls of both validators. -/
theorem C4_amended_witness :
    (∃ expl, NameValidator.validate true .netError (some "Dupont") (some "Pierre") none =
      .ok ((⟨.pstr "Dupont", "Dupont", 0, "error", ""⟩,
            ⟨.pstr "Pierre", "Pierre", 0, "error", ""⟩, expl), 1)) ∧
    CompanyValidator.validate true .badText (.pstr "Acme") "" =
      .ok (⟨.pstr "Acme", "Acme", CompanyValidator.calibrate 0.1 0 false true, "",
            "Fallback: Nom nettoyé basiquement en raison d\x27une réponse invalide de l\x27IA."⟩,
           1) := by
  constructor
  · have h := C4_amended_failure_outcomes.1 .netError (some "Dupont") (some "Pierre") none
      (Or.inl rfl) (by simp [pyOrEmpty, pyStrip, pyIsSpace])
    exact h
  · have h := C4_amended_failure_outcomes.2.2.1 (.pstr "Acme") ""
      (by simp [CompanyValidator.companyInputStr, pyStrip, pyIsSpace])
    exact h

/-- Counterexample to claim C5 as stated: on the no-client fast path the
organization validator returns the trimmed input, which differs from the
original input when it carries surrounding whitespace. -/
theorem C5_counterexample :
    CompanyValidator.validate false .netError (.pstr " Acme ") "" =
      .ok (⟨.pstr " Acme ", "Acme", 0, "no_llm", ""⟩, 0) ∧
    ("Acme" : String) ≠ " Acme " := ⟨rfl, by decide⟩

/-- Claim C5 (amended): when no client is configured or all inputs are
blank after trimming, both validators return immediately — zero external
calls — with provenance `no_llm`, confidence `0.0`, and corrected equal to
the *trimmed* input (which equals the original input whenever it has no
surrounding whitespace; the identity validator also stores the trimmed
value in the outcome's original field). -/
theorem C5_amended_fast_path :
    (∀ (client : Bool) (svc : SvcBehaviour) (nom prenom email : Option String),
        client = false ∨ (pyStrip (pyOrEmpty nom) = "" ∧ pyStrip (pyOrEmpty prenom) = "") →
        NameValidator.validate client svc nom prenom email =
          .ok ((⟨.pstr (pyStrip (pyOrEmpty nom)), pyStrip (pyOrEmpty nom), 0, "no_llm", ""⟩,
                ⟨.pstr (pyStrip (pyOrEmpty prenom)), pyStrip (pyOrEmpty prenom), 0,
                 "no_llm", ""⟩,
                "No LLM client or empty name/prenom input."), 0)) ∧
    (∀ (client : Bool) (svc : SvcBehaviour) (inp : PyVal) (dom : String),
        client = false ∨ CompanyValidator.companyInputStr inp = "" →
        CompanyValidator.validate client svc inp dom =
          .ok (⟨inp, CompanyValidator.companyInputStr inp, 0, "no_llm", ""⟩, 0)) := by
  constructor
  · intro client svc nom prenom email h
    rcases h with rfl | ⟨h1, h2⟩
    · rfl
    · unfold NameValidator.validate
      simp only [h1, h2]
      cases client <;> rfl
  · intro client svc inp dom h
    rcases h with rfl | h1
    · rfl
    · unfold CompanyValidator.validate
      simp only [h1]
      cases client <;> rfl

/-- Witness for the amended C5: a padded input on the no-client path. -/
theorem C5_amended_witness :
    CompanyValidator.validate false .netError (.pstr " Acme ") "x@y.z" =
      .ok (⟨.pstr " Acme ", "Acme", 0, "no_llm", ""⟩, 0) :=
  C5_amended_fast_path.2 false .netError (.pstr " Acme ") "x@y.z" (Or.inl rfl)

/-- Claim C10: the organization validator is total on the non-string cell
values pandas produces — `None` and floats (NaN in particular): the value
is `str()`-converted, a case-insensitive `"nan"` rendering (like `None`)
counts as empty input, and the no_llm fast path returns an outcome whose
original field preserves the raw value, with no external call and no
exception. -/
theorem C10_company_total_on_nan_none :
    ∀ (client : Bool) (svc : SvcBehaviour) (dom : String) (v : PyVal),
      (v = .pnone ∨ ∃ r, v = .pfloat r ∧ pyLower r = "nan") →
      CompanyValidator.validate client svc v dom = .ok (⟨v, "", 0, "no_llm", ""⟩, 0) := by
  intro client svc dom v h
  rcases h with rfl | ⟨r, rfl, hr⟩
  · unfold CompanyValidator.validate CompanyValidator.companyInputStr
    cases client <;> rfl
  · unfold CompanyValidator.validate CompanyValidator.companyInputStr
    dsimp only [pyValStr]
    rw [hr]
    cases client <;> rfl

/-- Witness for C10: a NaN rendered with unusual letter case still takes
the fast path with the raw value preserved. -/
theorem C10_witness :
    CompanyValidator.validate true .netError (.pfloat "NaN") "a@b.c" =
      .ok (⟨.pfloat "NaN", "", 0, "no_llm", ""⟩, 0) :=
  C10_company_total_on_nan_none true .netError "a@b.c" (.pfloat "NaN")
    (Or.inr ⟨"NaN", rfl, by decide⟩)

/-! ## Pipeline claims -/

namespace Pipeline

theorem countP_replicate {α : Type} (p : α → Bool) (a : α) (n : ℕ) :
    (List.replicate n a).countP p = if p a then n else 0 := by
  induction n with
  | zero => simp
  | succ m ih =>
      rw [List.replicate_succ, List.countP_cons, ih]
      cases hpa : p a <;> simp [hpa]

theorem countP_pos_exists {α : Type} {p : α → Bool} {l : List α}
    (h : 0 < l.countP p) : ∃ a ∈ l, p a = true := by
  induction l with
  | nil => simp at h
  | cons a as ih =>
      by_cases hpa : p a = true
      · exact ⟨a, List.mem_cons_self a as, hpa⟩
      · rw [List.countP_cons] at h
        simp [hpa] at h
        obtain ⟨b, hb, hpb⟩ := h
        exact ⟨b, List.mem_cons_of_mem _ hb, hpb⟩

theorem semInv_init (C n : ℕ) : SemInv C (initState C n) := by
  unfold SemInv countHolding initState
  dsimp only
  rw [countP_replicate]
  simp [isHolding]

theorem WF_init (C n : ℕ) : WF (initState C n) := by
  simp [WF, initState]

theorem pastFlag_init {C n i r : ℕ} (hi : i < n) (hr : 1 ≤ r) :
    pastFlag r (initState C n) i = 0 := by
  unfold pastFlag initState
  dsimp only
  rw [get?_replicate]
  simp only [hi, if_true, Option.map_some', Option.getD_some, phaseRank]
  rw [if_neg (by omega)]

theorem tagSet_init {C n i : ℕ} (hi : i < n) :
    tagSet (initState C n) i = false := by
  unfold tagSet initState
  dsimp only
  rw [get?_replicate]
  simp [hi]

theorem trace_writeCount {s s' : RunState} {tr : List (ℕ × Action)}
    (h : Trace s tr s') (i : ℕ) :
    pastFlag 7 s' i = pastFlag 7 s i + tr.countP (isWriteEvent i) := by
  have key := trace_pastFlag h i 7
  simpa [isWriteEvent] using key

theorem trace_finishNameCount {s s' : RunState} {tr : List (ℕ × Action)}
    (h : Trace s tr s') (i : ℕ) :
    pastFlag 3 s' i = pastFlag 3 s i + tr.countP (isFinishNameEvent i) := by
  have key := trace_pastFlag h i 3
  simpa [isFinishNameEvent] using key

theorem trace_finishCompanyCount {s s' : RunState} {tr : List (ℕ × Action)}
    (h : Trace s tr s') (i : ℕ) :
    pastFlag 5 s' i = pastFlag 5 s i + tr.countP (isFinishCompanyEvent i) := by
  have key := trace_pastFlag h i 5
  simpa [isFinishCompanyEvent] using key

end Pipeline

/-- Claim C2: in every state reachable by any interleaving of a pipeline
run started with gate capacity `C` (the semaphore acquired before the
first validator call and released unconditionally after the second
returns, as the step relation transcribes from `_process_row`), the number
of outstanding external validator calls never exceeds `C`. -/
theorem C2_concurrency_bound {C n : ℕ} {tr : List (ℕ × Pipeline.Action)}
    {s : Pipeline.RunState} (h : Pipeline.Trace (Pipeline.initState C n) tr s) :
    Pipeline.countCalling s ≤ C := by
  have hfin := Pipeline.trace_semInv h (Pipeline.semInv_init C n)
  have hc := Pipeline.countCalling_le_countHolding s
  unfold Pipeline.SemInv at hfin
  omega

/-- Witness for C2: a concrete two-task interleaving with one call
outstanding, reachable from capacity 2. -/
theorem C2_witness :
    Pipeline.countCalling
      ⟨1, ((List.replicate 2 Pipeline.Phase.ready).set 0 .acquired).set 0 .nameCalling,
       List.replicate 2 ""⟩ ≤ 2 := by
  have s1 : Pipeline.Step (Pipeline.initState 2 2) (0, .acquire)
      ⟨1, (Pipeline.initState 2 2).phases.set 0 .acquired,
       (Pipeline.initState 2 2).tags⟩ :=
    Pipeline.Step.acquire rfl rfl
  have s2 : Pipeline.Step
      ⟨1, (Pipeline.initState 2 2).phases.set 0 .acquired, (Pipeline.initState 2 2).tags⟩
      (0, .startName)
      ⟨1, ((Pipeline.initState 2 2).phases.set 0 .acquired).set 0 .nameCalling,
       (Pipeline.initState 2 2).tags⟩ :=
    Pipeline.Step.startName rfl
  exact C2_concurrency_bound
    (Pipeline.Trace.cons s1 (Pipeline.Trace.cons s2 (Pipeline.Trace.nil _)))

/-- Claim C9: over a complete pipeline run (a trace from the seeded
initial state — every source tag empty — to a state with every task done),
each row index is written exactly once, its source tag passes from empty
to non-empty, and any write of row `i` is preceded by both of row `i`'s
validator calls returning. -/
theorem C9_rows_processed_exactly_once {C n : ℕ} {tr : List (ℕ × Pipeline.Action)}
    {s : Pipeline.RunState} (h : Pipeline.Trace (Pipeline.initState C n) tr s)
    (hdone : ∀ i, i < n → s.phases.get? i = some .done) :
    ∀ i, i < n →
      tr.countP (Pipeline.isWriteEvent i) = 1 ∧
      Pipeline.tagSet (Pipeline.initState C n) i = false ∧
      Pipeline.tagSet s i = true ∧
      (∀ t1 e t2, tr = t1 ++ e :: t2 → Pipeline.isWriteEvent i e = true →
        (∃ e1 ∈ t1, Pipeline.isFinishNameEvent i e1 = true) ∧
        (∃ e2 ∈ t1, Pipeline.isFinishCompanyEvent i e2 = true)) := by
  intro i hi
  have hfin : Pipeline.pastFlag 7 s i = 1 := by
    unfold Pipeline.pastFlag
    rw [hdone i hi]
    simp [Pipeline.phaseRank]
  have hinit7 : Pipeline.pastFlag 7 (Pipeline.initState C n) i = 0 :=
    Pipeline.pastFlag_init hi (by omega)
  have hcount := Pipeline.trace_writeCount h i
  have hwrites : tr.countP (Pipeline.isWriteEvent i) = 1 := by omega
  refine ⟨hwrites, Pipeline.tagSet_init hi, ?_, ?_⟩
  · have htags := Pipeline.trace_tagSet h (Pipeline.WF_init C n) i
    rw [Pipeline.tagSet_init hi, Bool.false_or] at htags
    obtain ⟨e, he, hpe⟩ := Pipeline.countP_pos_exists (p := Pipeline.isWriteEvent i)
      (l := tr) (by omega)
    rw [htags, List.any_eq_true]
    exact ⟨e, he, hpe⟩
  · intro t1 e t2 htr hwe
    subst htr
    obtain ⟨smid, h1, h2⟩ := Pipeline.trace_append h
    cases h2 with
    | cons hstep htr2 =>
        obtain ⟨j, a⟩ := e
        unfold Pipeline.isWriteEvent at hwe
        rw [Bool.and_eq_true, beq_iff_eq, beq_iff_eq] at hwe
        obtain ⟨hji, hrank⟩ := hwe
        subst hji
        have hj : j < n := hi
        cases a <;> simp [Pipeline.actionRank] at hrank
        cases hstep with
        | writeRow hp =>
            have h3 : Pipeline.pastFlag 3 smid j = 1 := by
              unfold Pipeline.pastFlag
              rw [hp]
              simp [Pipeline.phaseRank]
            have h5 : Pipeline.pastFlag 5 smid j = 1 := by
              unfold Pipeline.pastFlag
              rw [hp]
              simp [Pipeline.phaseRank]
            have hn := Pipeline.trace_finishNameCount h1 j
            have hcpy := Pipeline.trace_finishCompanyCount h1 j
            rw [Pipeline.pastFlag_init (r := 3) hj (by omega)] at hn
            rw [Pipeline.pastFlag_init (r := 5) hj (by omega)] at hcpy
            constructor
            · have hpos : 0 < t1.countP (Pipeline.isFinishNameEvent j) := by omega
              exact Pipeline.countP_pos_exists hpos
            · have hpos : 0 < t1.countP (Pipeline.isFinishCompanyEvent j) := by omega
              exact Pipeline.countP_pos_exists hpos

/-- Witness for C9: a complete one-row run with capacity 1. -/
theorem C9_witness :
    ([((0 : ℕ), Pipeline.Action.acquire), (0, .startName), (0, .finishName true),
      (0, .startCompany), (0, .finishCompany true), (0, .release),
      (0, .writeRow "no_llm")].countP (Pipeline.isWriteEvent 0) = 1) ∧
    Pipeline.tagSet
      ⟨1, ((((((((List.replicate 1 Pipeline.Phase.ready).set 0 .acquired).set 0
        .nameCalling).set 0 .nameDone).set 0 .companyCalling).set 0
        .companyDone).set 0 .writing).set 0 .done),
       (List.replicate 1 "").set 0 ("nom:" ++ "no_llm")⟩ 0 = true := by
  have htrace : Pipeline.Trace (Pipeline.initState 1 1)
      [((0 : ℕ), Pipeline.Action.acquire), (0, .startName), (0, .finishName true),
       (0, .startCompany), (0, .finishCompany true), (0, .release),
       (0, .writeRow "no_llm")]
      ⟨1, ((((((((List.replicate 1 Pipeline.Phase.ready).set 0 .acquired).set 0
        .nameCalling).set 0 .nameDone).set 0 .companyCalling).set 0
        .companyDone).set 0 .writing).set 0 .done),
       (List.replicate 1 "").set 0 ("nom:" ++ "no_llm")⟩ :=
    Pipeline.Trace.cons (Pipeline.Step.acquire rfl rfl)
      (Pipeline.Trace.cons (Pipeline.Step.startName rfl)
        (Pipeline.Trace.cons (Pipeline.Step.finishName rfl)
          (Pipeline.Trace.cons (Pipeline.Step.startCompany rfl)
            (Pipeline.Trace.cons (Pipeline.Step.finishCompany rfl)
              (Pipeline.Trace.cons (Pipeline.Step.release rfl)
                (Pipeline.Trace.cons (Pipeline.Step.writeRow rfl)
                  (Pipeline.Trace.nil _)))))))
  have key := C9_rows_processed_exactly_once htrace
    (by
      intro i hi
      interval_cases i
      · rfl)
    0 (by omega)
  exact ⟨key.1, key.2.2.1⟩

/-! ## Checkpoint-scheduler claim -/

/-- Claim C3: each wake of `_save_loop` persists exactly when the newly
processed row count reaches the batch threshold or the elapsed time since
the last save exceeds the 10 s threshold; each such persist updates the
bookkeeping to the observed count and time; the loop returns exactly at
the first observation with all rows processed, performing there one
unconditional final persist (in addition to any threshold-triggered one). -/
theorem C3_save_loop_schedule :
    (∀ (batch total : ℕ) (st : SaveLoop.LoopState) (o : SaveLoop.Obs),
        SaveLoop.iterStep batch total st o =
          (if (batch : ℤ) ≤ (o.c : ℤ) - (st.processed : ℤ) ∨ 10 < o.t - st.lastSave
             then SaveLoop.LoopState.mk o.t o.c else st,
           (if (batch : ℤ) ≤ (o.c : ℤ) - (st.processed : ℤ) ∨ 10 < o.t - st.lastSave
              then 1 else 0) + (if o.c = total then 1 else 0),
           o.c == total)) ∧
    (∀ (batch total : ℕ) (st : SaveLoop.LoopState) (o : SaveLoop.Obs)
        (os : List SaveLoop.Obs), o.c = total →
        SaveLoop.run batch total st (o :: os) =
          ((SaveLoop.iterStep batch total st o).2.1, true) ∧
        1 ≤ (SaveLoop.iterStep batch total st o).2.1) ∧
    (∀ (batch total : ℕ) (st : SaveLoop.LoopState) (obs : List SaveLoop.Obs),
        (SaveLoop.run batch total st obs).2 = true → ∃ o ∈ obs, o.c = total) := by
  refine ⟨?_, ?_, ?_⟩
  · intro batch total st o
    unfold SaveLoop.iterStep
    by_cases h1 : (batch : ℤ) ≤ (o.c : ℤ) - (st.processed : ℤ) <;>
      by_cases h2 : 10 < o.t - st.lastSave <;>
        simp [h1, h2]
  · intro batch total st o os hc
    have hdone : (SaveLoop.iterStep batch total st o).2.2 = true := by
      unfold SaveLoop.iterStep
      simp [hc]
    constructor
    · unfold SaveLoop.run
      rw [if_pos hdone]
    · unfold SaveLoop.iterStep
      dsimp only
      simp only [hc, eq_self_iff_true, if_true]
      omega
  · intro batch total st obs
    induction obs generalizing st with
    | nil => intro hrun; simp [SaveLoop.run] at hrun
    | cons o os ih =>
        intro hrun
        unfold SaveLoop.run at hrun
        by_cases hdone : (SaveLoop.iterStep batch total st o).2.2 = true
        · refine ⟨o, List.mem_cons_self o os, ?_⟩
          unfold SaveLoop.iterStep at hdone
          simpa using hdone
        · rw [if_neg hdone] at hrun
          simp only at hrun
          obtain ⟨o2, ho2, hc2⟩ := ih _ hrun
          exact ⟨o2, List.mem_cons_of_mem _ ho2, hc2⟩

/-- Witness for C3: a three-row run observed complete at the first wake
performs its final persist and stops. -/
theorem C3_witness :
    SaveLoop.run 10 3 ⟨0, 0⟩ [⟨1, 3⟩] = (1, true) ∧
    (∃ o ∈ ([⟨1, 3⟩] : List SaveLoop.Obs), o.c = 3) := by
  have key := C3_save_loop_schedule.2.1 10 3 ⟨0, 0⟩ ⟨1, 3⟩ [] rfl
  have key2 := C3_save_loop_schedule.2.2 10 3 ⟨0, 0⟩ [⟨1, 3⟩]
  have hiter : (SaveLoop.iterStep 10 3 ⟨0, 0⟩ ⟨1, 3⟩).2.1 = 1 := by
    unfold SaveLoop.iterStep
    norm_num
  constructor
  · rw [key.1, hiter]
  · exact key2 (by rw [key.1])

end ProspectCleaner
